import Mathlib

/-!
Verification of the stroke-to-vector layout engine in
`src/backend/handwriting_helper.py` (repository BatchArtPro).

The Python module is shallowly embedded: coordinates (numpy float64) are
modelled by `ℚ`, Python lists by `List`, a Python string by `String`, and
the fallible `generate_handwriting_svg` by an `Except`-valued function.
The external handwriting library (`handwriting_lib`, imported by the module
as `handwriting_synthesis`) is NOT part of `src/`; its members used by the
module — `drawing.offsets_to_coords`, `drawing.denoise`, `drawing.align`,
`drawing.alphabet` and `Hand._sample` — are treated as parameters
(`DrawingLib`, `Hand`), exactly as the spec treats them (external
collaborators consumed as opaque functions).
-/

set_option autoImplicit false

/-- One pen sample `(x, y, endOfStroke)`.  The end-of-stroke flag is a float
in the source (numpy column), compared against `1.0`, so it is kept as `ℚ`. -/
structure StrokePoint where
  x : ℚ
  y : ℚ
  eos : ℚ
deriving DecidableEq

/-- A stroke: a sequence of pen samples (one numpy array row per sample). -/
abbrev Stroke := List StrokePoint

/-- The members of the external `handwriting_synthesis.drawing` module used by
`generate_handwriting_svg`.  They live in the vendored `handwriting_lib`
directory, outside the backend sources, so they are opaque parameters here. -/
structure DrawingLib where
  offsets_to_coords : Stroke → Stroke
  denoise : Stroke → Stroke
  align : List (ℚ × ℚ) → List (ℚ × ℚ)
  alphabet : List Char

/-- The external model instance: `hand._sample(lines, biases=…, styles=…)`
returns one stroke sequence per requested line. -/
structure Hand where
  sample : List String → List ℚ → List ℕ → List Stroke

/-- A serialized path command: `M x,y` or `L x,y`.  The source builds these
as a string; the geometric content is modelled structurally. -/
inductive PathCmd where
  | move (x y : ℚ)
  | line (x y : ℚ)
deriving DecidableEq

/-- One entry of the returned `paths_data` list:
`{'path': p, 'color': color, 'width': width}`. -/
structure PathDescriptor where
  path : List PathCmd
  color : String
  width : ℚ
deriving DecidableEq

/-- The non-string part of the return value
`(svg_string, view_width, view_height, paths_data)`. -/
structure SynthesisResult where
  view_width : ℚ
  view_height : ℚ
  paths : List PathDescriptor
deriving DecidableEq

/-- The `ValueError`s raised by the module, with the data their messages
carry, plus the empty-input error of the simple interface. -/
inductive SynthesisError where
  | lineTooLong (idx : ℕ) (len : ℕ)
  | invalidChar (c : Char) (idx : ℕ)
  | emptyInput
deriving DecidableEq

/-- `line_height = 60` (line 75 of the source). -/
def line_height : ℚ := 60

/-- The default of the `view_width` parameter in the Python signature
(`view_width: int = 1000`). -/
def default_view_width : ℚ := 1000

/-- Python `xs or dflt` applied to an optional list argument: `None` and the
empty list are falsy, any non-empty list is returned unchanged. -/
def pyListOr {α : Type} (arg : Option (List α)) (dflt : List α) : List α :=
  match arg with
  | none => dflt
  | some [] => dflt
  | some (a :: as) => a :: as

/-- Validation of a single line (source lines 65–69): the length check runs
first, then the characters are scanned in order for one outside the
alphabet. -/
def validateLine (alphabet : List Char) (idx : ℕ) (line : String) : Option SynthesisError :=
  if 75 < line.length then some (.lineTooLong idx line.length)
  else
    match line.toList.find? (fun c => !(alphabet.contains c)) with
    | some c => some (.invalidChar c idx)
    | none => none

/-- Validation loop over the enumerated lines (source lines 64–69):
the first offending line raises. -/
def validateLines (alphabet : List Char) : ℕ → List String → Option SynthesisError
  | _, [] => none
  | i, l :: ls =>
      match validateLine alphabet i l with
      | some e => some e
      | none => validateLines alphabet (i + 1) ls

/-- numpy `a.min()` over a list of rationals (0 for the empty list, where the
source would raise). -/
def qmin : List ℚ → ℚ
  | [] => 0
  | x :: xs => xs.foldl min x

/-- numpy `a.max()` over a list of rationals. -/
def qmax : List ℚ → ℚ
  | [] => 0
  | x :: xs => xs.foldl max x

/-- `offsets[:, :2] *= 1.5` (source line 91). -/
def scale_offsets (s : Stroke) : Stroke :=
  s.map fun p => ⟨p.x * (3 / 2), p.y * (3 / 2), p.eos⟩

/-- `stroke_data[:, :2] = drawing.align(stroke_data[:, :2])` (source line 94):
the two coordinate columns are passed to the library and written back, the
`eos` column is untouched. -/
def apply_align (alignf : List (ℚ × ℚ) → List (ℚ × ℚ)) (s : Stroke) : Stroke :=
  List.zipWith (fun xy p => ⟨xy.1, xy.2, p.eos⟩) (alignf (s.map fun p => (p.x, p.y))) s

/-- `stroke_data[:, 1] *= -1` (source line 96). -/
def flip_y (s : Stroke) : Stroke :=
  s.map fun p => ⟨p.x, -p.y, p.eos⟩

/-- `stroke_data[:, :2].min()` (source line 97): the minimum over BOTH
coordinate columns — a single scalar, not a per-column minimum. -/
def global_min (s : Stroke) : ℚ :=
  qmin (s.map (fun p => p.x) ++ s.map (fun p => p.y))

/-- `stroke_data[:, :2] -= stroke_data[:, :2].min() + initial_coord`
(source line 97), with `initial_coord = [0, cursor]`: broadcasting subtracts
the global minimum from the x column and the global minimum plus the cursor
from the y column. -/
def translate_to_origin (cursor : ℚ) (s : Stroke) : Stroke :=
  let m := global_min s
  s.map fun p => ⟨p.x - m, p.y - (m + cursor), p.eos⟩

/-- `stroke_data[:, 0] += (view_width - stroke_data[:, 0].max()) / 2`
(source line 98). -/
def center_x (view_width : ℚ) (s : Stroke) : Stroke :=
  let mx := qmax (s.map (fun p => p.x))
  s.map fun p => ⟨p.x + (view_width - mx) / 2, p.y, p.eos⟩

/-- The layout step applied to a processed line (source lines 96–98). -/
def layout_line (view_width cursor : ℚ) (s : Stroke) : Stroke :=
  center_x view_width (translate_to_origin cursor (flip_y s))

/-- The full per-line processing (source lines 91–98): scale, decode,
denoise, align, then lay out on the canvas. -/
def process_line (lib : DrawingLib) (view_width cursor : ℚ) (offsets : Stroke) : Stroke :=
  layout_line view_width cursor
    (apply_align lib.align (lib.denoise (lib.offsets_to_coords (scale_offsets offsets))))

/-- The command-emission loop (source lines 102–104), carrying `prev_eos`:
the current point gets `M` when the previous point's flag was `1.0`, else
`L`; then `prev_eos` becomes the current point's flag. -/
def path_cmds : ℚ → Stroke → List PathCmd
  | _, [] => []
  | prev_eos, p :: ps =>
      (if prev_eos = 1 then PathCmd.move p.x p.y else PathCmd.line p.x p.y)
        :: path_cmds p.eos ps

/-- Path serialization of one laid-out line (source lines 100–104):
`p = "M0,0 "` then the loop starting from `prev_eos = 1.0`. -/
def serialize_path (s : Stroke) : List PathCmd :=
  PathCmd.move 0 0 :: path_cmds 1 s

/-- `zip(strokes, lines, stroke_colors, stroke_widths)` (source line 86),
which truncates to the shortest argument. -/
def layout_items (strokes : List Stroke) (lines : List String)
    (colors : List String) (widths : List ℚ) : List (Stroke × String × String × ℚ) :=
  strokes.zip (lines.zip (colors.zip widths))

/-- The main loop of `generate_handwriting_svg` (source lines 86–116): a
blank (empty) line only moves the vertical cursor down by `line_height`; a
non-blank line is processed, serialized and appended to `paths_data`, and
then the cursor moves down by `line_height` as well. -/
def svg_loop (lib : DrawingLib) (view_width : ℚ) :
    ℚ → List (Stroke × String × String × ℚ) → List PathDescriptor
  | _, [] => []
  | cursor, (st, ln, col, w) :: rest =>
      if ln = "" then svg_loop lib view_width (cursor - line_height) rest
      else
        ⟨serialize_path (process_line lib view_width cursor st), col, w⟩
          :: svg_loop lib view_width (cursor - line_height) rest

/-- `generate_handwriting_svg` (source lines 29–121).  The svg text itself is
not modelled; the returned `view_width`, `view_height` and `paths_data` are.
A raised `ValueError` is an `Except.error`. -/
def generate_handwriting_svg (lib : DrawingLib) (hand : Hand) (lines : List String)
    (biases : Option (List ℚ)) (styles : Option (List ℕ))
    (stroke_colors : Option (List String)) (stroke_widths : Option (List ℚ))
    (view_width : ℚ) : Except SynthesisError SynthesisResult :=
  let num_lines := lines.length
  let biases := pyListOr biases (List.replicate num_lines ((3 : ℚ) / 4))
  let styles := pyListOr styles (List.replicate num_lines 9)
  let stroke_colors := pyListOr stroke_colors (List.replicate num_lines "black")
  let stroke_widths := pyListOr stroke_widths (List.replicate num_lines 2)
  match validateLines lib.alphabet 0 lines with
  | some e => Except.error e
  | none =>
      let strokes := hand.sample lines biases styles
      let view_height := line_height * (strokes.length + 1)
      let paths := svg_loop lib view_width (-(3 * line_height / 4))
        (layout_items strokes lines stroke_colors stroke_widths)
      Except.ok ⟨view_width, view_height, paths⟩

/-- Helper: a successful call has `view_height = line_height * (#lines + 1)`
whenever the model returns one stroke sequence per line. -/
theorem generate_view_height (lib : DrawingLib) (hand : Hand) (lines : List String)
    (b : Option (List ℚ)) (s : Option (List ℕ)) (c : Option (List String))
    (w : Option (List ℚ)) (vw : ℚ) (r : SynthesisResult)
    (hs : ∀ ls bs ss, (hand.sample ls bs ss).length = ls.length)
    (h : generate_handwriting_svg lib hand lines b s c w vw = Except.ok r) :
    r.view_height = line_height * (lines.length + 1) := by
  unfold generate_handwriting_svg at h
  cases hv : validateLines lib.alphabet 0 lines with
  | some e => rw [hv] at h; cases h
  | none =>
      rw [hv] at h
      simp only [Except.ok.injEq] at h
      subst h
      simp [hs]

/-- Concrete library instance for witnesses: identity transforms and a small
alphabet. -/
def lib0 : DrawingLib := ⟨id, id, id, ['a', 'b', 'c', 'd']⟩

/-- Concrete model instance for witnesses: one single-sample stroke per
requested line. -/
def hand0 : Hand := ⟨fun ls _ _ => ls.map (fun _ => [⟨0, 0, 1⟩])⟩

/-- The value `generate_handwriting_svg lib0 hand0 ["ab", "cd"] … 1000`
computes to. -/
def res0 : SynthesisResult :=
  ⟨1000, 180,
    [⟨[PathCmd.move 0 0, PathCmd.move 500 45], "black", 2⟩,
     ⟨[PathCmd.move 0 0, PathCmd.move 500 105], "black", 2⟩]⟩

/-- Claim C1: for every synthesis call to `generate_handwriting_svg` with N
input lines, assuming the model returns one stroke sequence per line, the
returned canvas height equals `lineHeight * (N + 1)` with `lineHeight = 60`,
regardless of how many of the N lines are blank. -/
theorem claim_C1 (lib : DrawingLib) (hand : Hand) (lines : List String)
    (b : Option (List ℚ)) (s : Option (List ℕ)) (c : Option (List String))
    (w : Option (List ℚ)) (vw : ℚ) (r : SynthesisResult)
    (hs : ∀ ls bs ss, (hand.sample ls bs ss).length = ls.length)
    (h : generate_handwriting_svg lib hand lines b s c w vw = Except.ok r) :
    r.view_height = 60 * (lines.length + 1) := by
  have hh := generate_view_height lib hand lines b s c w vw r hs h
  simpa [line_height] using hh

/-- Witness for C1 at the concrete call
`generate_handwriting_svg lib0 hand0 ["ab", "cd"] none none none none 1000`,
whose two input lines include no blanks and whose height is `60 * 3`. -/
theorem claim_C1_witness :
    res0.view_height = 60 * ((["ab", "cd"] : List String).length + 1) :=
  claim_C1 lib0 hand0 ["ab", "cd"] none none none none 1000 res0
    (fun ls _ _ => by simp [hand0])
    (by
      have hv : validateLines ['a', 'b', 'c', 'd'] 0 ["ab", "cd"] = none := by decide
      have h1 : ("ab" : String) ≠ "" := by decide
      have h2 : ("cd" : String) ≠ "" := by decide
      norm_num [generate_handwriting_svg, hv, h1, h2, hand0, lib0, res0, pyListOr,
        layout_items, svg_loop, process_line, apply_align, scale_offsets, flip_y,
        global_min, translate_to_origin, center_x, layout_line, qmin, qmax,
        serialize_path, path_cmds, line_height])

/-- A line that violates the validation rules of source lines 65–69: longer
than 75 characters, or containing a character outside the alphabet. -/
def lineInvalid (alphabet : List Char) (line : String) : Prop :=
  75 < line.length ∨ ∃ c ∈ line.toList, c ∉ alphabet

/-- The raised error genuinely identifies an offending line of the input:
its index is in range, and that line exhibits the reported violation. -/
def errSound (alphabet : List Char) (lines : List String) : SynthesisError → Prop
  | .lineTooLong idx len =>
      ∃ h : idx < lines.length, (lines.get ⟨idx, h⟩).length = len ∧ 75 < len
  | .invalidChar c idx =>
      ∃ h : idx < lines.length, c ∈ (lines.get ⟨idx, h⟩).toList ∧ c ∉ alphabet
  | .emptyInput => False

/-- Helper: a line that passes `validateLine` is not invalid. -/
theorem validateLine_none {alphabet : List Char} {idx : ℕ} {line : String}
    (h : validateLine alphabet idx line = none) : ¬ lineInvalid alphabet line := by
  unfold validateLine at h
  split at h
  · cases h
  · rename_i hlen
    intro hbad
    rcases hbad with hl | ⟨c, hc, hna⟩
    · exact hlen hl
    · cases hfind : line.toList.find? (fun c => !(alphabet.contains c)) with
      | some c => rw [hfind] at h; cases h
      | none =>
          rw [List.find?_eq_none] at hfind
          exact hna (by simpa using hfind c hc)

/-- Helper: an error produced by `validateLine` correctly describes the
line it was checked against. -/
theorem validateLine_some {alphabet : List Char} {idx : ℕ} {line : String}
    {e : SynthesisError} (h : validateLine alphabet idx line = some e) :
    (∃ len, e = .lineTooLong idx len ∧ len = line.length ∧ 75 < line.length) ∨
    (∃ c, e = .invalidChar c idx ∧ c ∈ line.toList ∧ c ∉ alphabet) := by
  unfold validateLine at h
  split at h
  · rename_i hlen
    left
    exact ⟨line.length, by cases h; exact rfl, rfl, hlen⟩
  · cases hfind : line.toList.find? (fun c => !(alphabet.contains c)) with
    | some c =>
        right
        rw [hfind] at h
        refine ⟨c, by cases h; exact rfl, List.mem_of_find?_eq_some hfind, ?_⟩
        have := List.find?_some hfind
        simpa using this
    | none => rw [hfind] at h; cases h

/-- Helper: a line list that passes `validateLines` has no invalid line. -/
theorem validateLines_none {alphabet : List Char} :
    ∀ {ls : List String} {i : ℕ}, validateLines alphabet i ls = none →
      ∀ j (hj : j < ls.length), ¬ lineInvalid alphabet (ls.get ⟨j, hj⟩) := by
  intro ls
  induction ls with
  | nil => intro i _ j hj; cases hj
  | cons l rest ih =>
      intro i h j hj
      unfold validateLines at h
      cases hv : validateLine alphabet i l with
      | some e => rw [hv] at h; cases h
      | none =>
          rw [hv] at h
          cases j with
          | zero => exact validateLine_none hv
          | succ k => exact ih h k (Nat.lt_of_succ_lt_succ hj)

/-- Helper: an error produced by `validateLines alphabet i` describes the
line at relative position `j` with reported index `i + j`. -/
theorem validateLines_some {alphabet : List Char} :
    ∀ {ls : List String} {i : ℕ} {e : SynthesisError},
      validateLines alphabet i ls = some e →
      ∃ j, ∃ hj : j < ls.length,
        ((∃ len, e = .lineTooLong (i + j) len ∧
            len = (ls.get ⟨j, hj⟩).length ∧ 75 < len) ∨
         (∃ c, e = .invalidChar c (i + j) ∧
            c ∈ (ls.get ⟨j, hj⟩).toList ∧ c ∉ alphabet)) := by
  intro ls
  induction ls with
  | nil => intro i e h; cases h
  | cons l rest ih =>
      intro i e h
      unfold validateLines at h
      cases hv : validateLine alphabet i l with
      | some e0 =>
          rw [hv] at h
          cases h
          refine ⟨0, Nat.succ_pos _, ?_⟩
          rcases validateLine_some hv with ⟨len, he, hlen, hgt⟩ | ⟨c, he, hc, hna⟩
          · exact Or.inl ⟨len, by simpa using he, by simpa using hlen.symm ▸ hlen, hlen ▸ hgt⟩
          · exact Or.inr ⟨c, by simpa using he, hc, hna⟩
      | none =>
          rw [hv] at h
          rcases ih h with ⟨j, hj, hcase⟩
          refine ⟨j + 1, Nat.succ_lt_succ hj, ?_⟩
          have harith : i + 1 + j = i + (j + 1) := by omega
          rcases hcase with ⟨len, he, hlen, hgt⟩ | ⟨c, he, hc, hna⟩
          · exact Or.inl ⟨len, by rw [he, harith], hlen, hgt⟩
          · exact Or.inr ⟨c, by rw [he, harith], hc, hna⟩

/-- Claim C2: if some line exceeds 75 characters or contains a character
outside the allowed alphabet, `generate_handwriting_svg` raises a
`ValueError` identifying an offending line's index (with its length or the
offending character), and the outcome is the same for every model — the
error is raised before the model's sampling function could be invoked, so
no partial synthesis is attempted. -/
theorem claim_C2 (lib : DrawingLib) (lines : List String)
    (b : Option (List ℚ)) (s : Option (List ℕ)) (c : Option (List String))
    (w : Option (List ℚ)) (vw : ℚ)
    (hbad : ∃ j, ∃ hj : j < lines.length, lineInvalid lib.alphabet (lines.get ⟨j, hj⟩)) :
    ∃ e : SynthesisError, errSound lib.alphabet lines e ∧
      ∀ hand : Hand,
        generate_handwriting_svg lib hand lines b s c w vw = Except.error e := by
  cases hv : validateLines lib.alphabet 0 lines with
  | none =>
      exfalso
      rcases hbad with ⟨j, hj, hinv⟩
      exact validateLines_none hv j hj hinv
  | some e =>
      refine ⟨e, ?_, ?_⟩
      · rcases validateLines_some hv with ⟨j, hj, hcase⟩
        rcases hcase with ⟨len, he, hlen, hgt⟩ | ⟨ch, he, hc, hna⟩
        · subst he
          exact ⟨by simpa using hj, by simpa using hlen.symm, hgt⟩
        · subst he
          exact ⟨by simpa using hj, by simpa using hc, hna⟩
      · intro hand
        unfold generate_handwriting_svg
        rw [hv]

/-- A 76-character line, used to witness C2. -/
def bigLine : String := ⟨List.replicate 76 'a'⟩

/-- Witness for C2 at the concrete input `[bigLine]` (one line of 76 `a`s),
which violates the length limit. -/
theorem claim_C2_witness :
    ∃ e : SynthesisError, errSound lib0.alphabet [bigLine] e ∧
      ∀ hand : Hand,
        generate_handwriting_svg lib0 hand [bigLine] none none none none 1000
          = Except.error e :=
  claim_C2 lib0 [bigLine] none none none none 1000
    ⟨0, by decide, Or.inl (by decide)⟩

/-- The horizontal placement as the SPEC describes it (§4.4): translate so
the line's minimum x equals zero, then add `(canvasWidth - lineMaxX) / 2` to
every x coordinate; the vertical handling is kept as the code performs it.
Stated for comparison with `layout_line` (refinement claim C3). -/
def layout_line_spec (view_width cursor : ℚ) (s : Stroke) : Stroke :=
  let f := flip_y s
  let m := global_min f
  let mnx := qmin (f.map (fun p => p.x))
  let t : Stroke := f.map fun p => ⟨p.x - mnx, p.y - (m + cursor), p.eos⟩
  let mx := qmax (t.map (fun p => p.x))
  t.map fun p => ⟨p.x + (view_width - mx) / 2, p.y, p.eos⟩

/-- Counterexample to C3 as stated: for the one-point line `(0, 10, 1)` the
code (line 97) subtracts `stroke_data[:, :2].min()` — the minimum over BOTH
columns, here `-10` from the flipped y — from the x column, so after the
translation the minimum x is `10`, not `0`, and after the half-width shift
the point sits at `x = 505`: the midpoint of the ink is `505 ≠ 1000 / 2`,
so the line is not horizontally centered in the canvas. -/
theorem claim_C3_counterexample :
    layout_line 1000 (-45) [⟨0, 10, 1⟩] = [⟨505, 45, 1⟩] ∧
    layout_line_spec 1000 (-45) [⟨0, 10, 1⟩] = [⟨500, 45, 1⟩] ∧
    layout_line 1000 (-45) [⟨0, 10, 1⟩] ≠ layout_line_spec 1000 (-45) [⟨0, 10, 1⟩] := by
  norm_num [layout_line, layout_line_spec, flip_y, global_min, translate_to_origin,
    center_x, qmin, qmax, min_def]

/-- Helper: folding `min` commutes with adding a constant. -/
theorem foldl_min_map_add (c : ℚ) :
    ∀ (xs : List ℚ) (a : ℚ),
      (xs.map (fun v => v + c)).foldl min (a + c) = xs.foldl min a + c := by
  intro xs
  induction xs with
  | nil => intro a; rfl
  | cons x xs ih =>
      intro a
      simp only [List.map_cons, List.foldl_cons]
      rw [min_add_add_right, ih]

/-- Helper: folding `max` commutes with adding a constant. -/
theorem foldl_max_map_add (c : ℚ) :
    ∀ (xs : List ℚ) (a : ℚ),
      (xs.map (fun v => v + c)).foldl max (a + c) = xs.foldl max a + c := by
  intro xs
  induction xs with
  | nil => intro a; rfl
  | cons x xs ih =>
      intro a
      simp only [List.map_cons, List.foldl_cons]
      rw [max_add_add_right, ih]

/-- Helper: `qmin` of a shifted non-empty list. -/
theorem qmin_map_add (c : ℚ) (l : List ℚ) (hl : l ≠ []) :
    qmin (l.map (fun v => v + c)) = qmin l + c := by
  cases l with
  | nil => cases hl rfl
  | cons x xs => simpa [qmin] using foldl_min_map_add c xs x

/-- Helper: `qmax` of a shifted non-empty list. -/
theorem qmax_map_add (c : ℚ) (l : List ℚ) (hl : l ≠ []) :
    qmax (l.map (fun v => v + c)) = qmax l + c := by
  cases l with
  | nil => cases hl rfl
  | cons x xs => simpa [qmax] using foldl_max_map_add c xs x

/-- Helper: flipping y leaves the x column unchanged. -/
theorem flip_y_x (s : Stroke) :
    (flip_y s).map (fun p => p.x) = s.map (fun p => p.x) := by
  simp [flip_y, List.map_map]

/-- Helper: the x column of the translated stroke is the x column of the
input shifted by minus the global minimum. -/
theorem translate_x_col (cursor : ℚ) (f : Stroke) :
    (translate_to_origin cursor f).map (fun p => p.x) =
      (f.map (fun p => p.x)).map (fun v => v + -(global_min f)) := by
  simp [translate_to_origin, List.map_map, sub_eq_add_neg, Function.comp]

/-- Helper: the x column of the centered stroke is the x column of the
input shifted by half the residual width. -/
theorem center_x_col (vw : ℚ) (t : Stroke) :
    (center_x vw t).map (fun p => p.x) =
      (t.map (fun p => p.x)).map
        (fun v => v + (vw - qmax (t.map (fun p => p.x))) / 2) := by
  simp [center_x, List.map_map, Function.comp]

/-- Claim C3, amended: line 97 of the source subtracts the minimum over BOTH
coordinate columns (x and flipped y) from every x, then line 98 adds
`(canvasWidth - lineMaxX) / 2`.  When that overall minimum is attained by an
x coordinate — and only by virtue of that hypothesis — this coincides with
the spec's description (translate so the minimum x is zero, then center):
the laid-out line then is horizontally centered (the minimum and maximum x
of the result are symmetric about `canvasWidth / 2`).  The x placement of a
line never depends on the vertical cursor, so it is independent of the
other lines. -/
theorem claim_C3 (vw cursor : ℚ) (s : Stroke) (hne : s ≠ [])
    (hmin : global_min (flip_y s) = qmin (s.map (fun p => p.x))) :
    layout_line vw cursor s = layout_line_spec vw cursor s ∧
    qmin ((layout_line vw cursor s).map (fun p => p.x)) +
      qmax ((layout_line vw cursor s).map (fun p => p.x)) = vw ∧
    ∀ c1 c2 : ℚ, (layout_line vw c1 s).map (fun p => p.x) =
      (layout_line vw c2 s).map (fun p => p.x) := by
  have hxs : s.map (fun p => p.x) ≠ [] := by
    simpa using hne
  constructor
  · simp only [layout_line, layout_line_spec, translate_to_origin, center_x]
    rw [flip_y_x, ← hmin]
  constructor
  · rw [layout_line, center_x_col, translate_x_col, flip_y_x]
    have h1 : (s.map (fun p => p.x)).map (fun v => v + -(global_min (flip_y s))) ≠ [] := by
      simpa using hxs
    rw [qmin_map_add _ _ h1, qmax_map_add _ _ h1,
        qmin_map_add _ _ hxs, qmax_map_add _ _ hxs, hmin]
    ring
  · intro c1 c2
    rw [layout_line, layout_line, center_x_col, center_x_col,
        translate_x_col, translate_x_col]

/-- Witness for the amended C3 at the one-point line `(0, -5, 1)`: after the
vertical flip its y is `5`, so the overall minimum `0` is attained by the x
coordinate, the code agrees with the spec's centering there, and the x
placement is the same under two different cursors. -/
theorem claim_C3_witness :
    layout_line 1000 (-45) [⟨0, -5, 1⟩] = layout_line_spec 1000 (-45) [⟨0, -5, 1⟩] ∧
    qmin ((layout_line 1000 (-45) [⟨0, -5, 1⟩]).map (fun p => p.x)) +
      qmax ((layout_line 1000 (-45) [⟨0, -5, 1⟩]).map (fun p => p.x)) = 1000 ∧
    (layout_line 1000 (-45) [⟨0, -5, 1⟩]).map (fun p => p.x) =
      (layout_line 1000 (-105) [⟨0, -5, 1⟩]).map (fun p => p.x) := by
  obtain ⟨h1, h2, h3⟩ :=
    claim_C3 1000 (-45) [⟨0, -5, 1⟩] (by simp)
      (by norm_num [global_min, flip_y, qmin, min_def])
  exact ⟨h1, h2, h3 (-45) (-105)⟩

/-- The serialization as claim C4 describes it: an explicit move to the
origin, then one command per point in order, a move exactly when the
PREVIOUS point's `endOfStroke` flag was 1 (the first point treated as if
preceded by a flag of 1), otherwise a line. -/
def serialize_path_spec (s : Stroke) : List PathCmd :=
  PathCmd.move 0 0 ::
    List.zipWith
      (fun p prev => if prev = (1 : ℚ) then PathCmd.move p.x p.y else PathCmd.line p.x p.y)
      s (1 :: s.map (fun p => p.eos))

/-- Helper: the command loop zips every point with its predecessor's flag. -/
theorem path_cmds_eq (s : Stroke) : ∀ prev : ℚ,
    path_cmds prev s =
      List.zipWith
        (fun p pe => if pe = (1 : ℚ) then PathCmd.move p.x p.y else PathCmd.line p.x p.y)
        s (prev :: s.map (fun p => p.eos)) := by
  induction s with
  | nil => intro prev; rfl
  | cons p ps ih =>
      intro prev
      simp only [path_cmds, List.map_cons, List.zipWith_cons_cons]
      rw [ih p.eos]

/-- Claim C4: for every laid-out line, the serialized path equals an explicit
move to `(0,0)` followed by one command per point, where a point is emitted
as a move exactly when the previous point's `endOfStroke` flag was 1 (the
first point always being treated as preceded by 1, hence a move), else as a
line; in particular for a non-empty line the string starts with the move to
`(0,0)` followed immediately by a move to the first real point. -/
theorem claim_C4 (s : Stroke) :
    serialize_path s = serialize_path_spec s ∧
    ∀ p ps, s = p :: ps →
      (serialize_path s).take 2 = [PathCmd.move 0 0, PathCmd.move p.x p.y] := by
  constructor
  · simp only [serialize_path, serialize_path_spec]
    rw [path_cmds_eq]
  · intro p ps hs
    subst hs
    simp [serialize_path, path_cmds]

/-- Witness for C4 at the two-point line `[(1,2,eos=1), (3,4,eos=0)]`. -/
theorem claim_C4_witness :
    serialize_path [⟨1, 2, 1⟩, ⟨3, 4, 0⟩] = serialize_path_spec [⟨1, 2, 1⟩, ⟨3, 4, 0⟩] ∧
    (serialize_path [⟨1, 2, 1⟩, ⟨3, 4, 0⟩]).take 2 = [PathCmd.move 0 0, PathCmd.move 1 2] :=
  ⟨(claim_C4 [⟨1, 2, 1⟩, ⟨3, 4, 0⟩]).1,
   (claim_C4 [⟨1, 2, 1⟩, ⟨3, 4, 0⟩]).2 ⟨1, 2, 1⟩ [⟨3, 4, 0⟩] rfl⟩

/-- Position-indexed list (indices starting at `k`), used to state the
layout claims positionally. -/
def withIndex {α : Type} (k : ℕ) : List α → List (ℕ × α)
  | [] => []
  | a :: as => (k, a) :: withIndex (k + 1) as

/-- Helper: closed form of the main loop.  The descriptor of the item at
position `i` (blank lines skipped) is built with cursor
`c0 - i * line_height`; every item, blank or not, advances the cursor. -/
theorem svg_loop_closed (lib : DrawingLib) (vw : ℚ) (c0 : ℚ) :
    ∀ (items : List (Stroke × String × String × ℚ)) (k : ℕ),
      svg_loop lib vw (c0 - (k : ℚ) * line_height) items =
        (withIndex k items).filterMap
          (fun pr =>
            if pr.2.2.1 = "" then none
            else some ⟨serialize_path
                (process_line lib vw (c0 - (pr.1 : ℚ) * line_height) pr.2.1),
              pr.2.2.2.1, pr.2.2.2.2⟩) := by
  intro items
  induction items with
  | nil => intro k; rfl
  | cons it rest ih =>
      intro k
      obtain ⟨st, ln, col, w⟩ := it
      have hc : c0 - (k : ℚ) * line_height - line_height
          = c0 - ((k + 1 : ℕ) : ℚ) * line_height := by
        push_cast
        ring
      by_cases hln : ln = ""
      · simp only [svg_loop, withIndex, List.filterMap_cons, hln, if_pos rfl]
        rw [hc, ih (k + 1)]
        simp
      · simp only [svg_loop, withIndex, List.filterMap_cons, if_neg hln]
        rw [hc, ih (k + 1)]

/-- Claim C5: a blank input line never contributes a `PathDescriptor`, yet
the vertical cursor is decremented by exactly `line_height` for every line,
blank lines included — the item at position `i` of the loop uses cursor
`c0 - i * line_height` — and in `generate_handwriting_svg` the cursor
begins at `-(3/4 * line_height)`. -/
theorem claim_C5 (lib : DrawingLib) (vw : ℚ) :
    (∀ (items : List (Stroke × String × String × ℚ)) (cursor : ℚ),
      svg_loop lib vw cursor items =
        (withIndex 0 items).filterMap
          (fun pr =>
            if pr.2.2.1 = "" then none
            else some ⟨serialize_path
                (process_line lib vw (cursor - (pr.1 : ℚ) * line_height) pr.2.1),
              pr.2.2.2.1, pr.2.2.2.2⟩)) ∧
    (∀ (hand : Hand) (lines : List String) (b : Option (List ℚ)) (s : Option (List ℕ))
        (c : Option (List String)) (w : Option (List ℚ)) (r : SynthesisResult),
      generate_handwriting_svg lib hand lines b s c w vw = Except.ok r →
      r.paths = svg_loop lib vw (-(3 * line_height / 4))
        (layout_items
          (hand.sample lines (pyListOr b (List.replicate lines.length ((3 : ℚ) / 4)))
            (pyListOr s (List.replicate lines.length 9)))
          lines
          (pyListOr c (List.replicate lines.length "black"))
          (pyListOr w (List.replicate lines.length 2)))) := by
  constructor
  · intro items cursor
    have h := svg_loop_closed lib vw cursor items 0
    simpa using h
  · intro hand lines b s c w r h
    unfold generate_handwriting_svg at h
    cases hv : validateLines lib.alphabet 0 lines with
    | some e => rw [hv] at h; cases h
    | none =>
        rw [hv] at h
        simp only [Except.ok.injEq] at h
        subst h
        rfl

/-- Witness for C5: the closed form of the loop at a concrete item list with
a blank line between two non-blank ones, and the paths of a concrete
successful call. -/
theorem claim_C5_witness :
    (svg_loop lib0 1000 (-45)
        [([⟨0, 0, 1⟩], "ab", "black", 2), ([], "", "black", 2), ([⟨0, 0, 1⟩], "cd", "black", 2)] =
      (withIndex 0
          [(([⟨0, 0, 1⟩] : Stroke), ("ab" : String), ("black" : String), (2 : ℚ)),
           ([], "", "black", 2), ([⟨0, 0, 1⟩], "cd", "black", 2)]).filterMap
        (fun pr =>
          if pr.2.2.1 = "" then none
          else some ⟨serialize_path
              (process_line lib0 1000 ((-45) - (pr.1 : ℚ) * line_height) pr.2.1),
            pr.2.2.2.1, pr.2.2.2.2⟩)) ∧
    res0.paths = svg_loop lib0 1000 (-(3 * line_height / 4))
      (layout_items
        (hand0.sample ["ab", "cd"]
          (pyListOr none (List.replicate (["ab", "cd"] : List String).length ((3 : ℚ) / 4)))
          (pyListOr none (List.replicate (["ab", "cd"] : List String).length 9)))
        ["ab", "cd"]
        (pyListOr none (List.replicate (["ab", "cd"] : List String).length "black"))
        (pyListOr none (List.replicate (["ab", "cd"] : List String).length 2))) :=
  ⟨(claim_C5 lib0 1000).1 _ (-45),
   (claim_C5 lib0 1000).2 hand0 ["ab", "cd"] none none none none res0
    (by
      have hv : validateLines ['a', 'b', 'c', 'd'] 0 ["ab", "cd"] = none := by decide
      have h1 : ("ab" : String) ≠ "" := by decide
      have h2 : ("cd" : String) ≠ "" := by decide
      norm_num [generate_handwriting_svg, hv, h1, h2, hand0, lib0, res0, pyListOr,
        layout_items, svg_loop, process_line, apply_align, scale_offsets, flip_y,
        global_min, translate_to_origin, center_x, layout_line, qmin, qmax,
        serialize_path, path_cmds, line_height])⟩

/-- The ASCII whitespace characters Python `str.strip()` removes: space,
tab, newline, carriage return, vertical tab, form feed.  (The module's
lines are alphabet-restricted ASCII, so the Unicode cases do not arise.) -/
def isPySpace (c : Char) : Bool :=
  c == ' ' || c == '\t' || c == '\n' || c == '\r' || c == '\x0b' || c == '\x0c'

/-- Python `line.strip()`: drop whitespace from both ends. -/
def pyStrip (s : String) : String :=
  ⟨((s.toList.dropWhile isPySpace).reverse.dropWhile isPySpace).reverse⟩

/-- Python `text.split('\n')`: the split always yields one (possibly empty)
piece more than there are newlines; `"".split('\n') == [""]`. -/
def splitNewlines : List Char → List (List Char)
  | [] => [[]]
  | c :: rest =>
      let r := splitNewlines rest
      if c = '\n' then [] :: r
      else
        match r with
        | [] => [[c]]
        | l :: ls => (c :: l) :: ls

/-- The line list computed by the simple interface (source line 140):
`[line.strip() for line in text.split('\n') if line.strip()]`. -/
def simple_lines (text : String) : List String :=
  ((splitNewlines text.toList).map (fun l => pyStrip ⟨l⟩)).filter (fun l => !(l == ""))

/-- `generate_handwriting_svg_simple` (source lines 124–160): strip each
line, drop blank lines, raise on zero remaining lines, then call the main
function with per-line constant styling and the default view width.  The
returned dict `{svg, width, height, paths}` is modelled by
`SynthesisResult`. -/
def generate_handwriting_svg_simple (lib : DrawingLib) (hand : Hand) (text : String)
    (style : ℕ) (bias : ℚ) (color : String) (width : ℚ) :
    Except SynthesisError SynthesisResult :=
  let lines := simple_lines text
  if lines = [] then Except.error SynthesisError.emptyInput
  else
    let n := lines.length
    generate_handwriting_svg lib hand lines
      (some (List.replicate n bias)) (some (List.replicate n style))
      (some (List.replicate n color)) (some (List.replicate n width))
      default_view_width

/-- Claim C6: the simple interface strips each line and removes blank lines
BEFORE synthesis (so, through it, blank lines contribute neither a path nor
vertical space), and — when the model returns one stroke sequence per
line — a successful call's height is `60 * (number of non-blank lines + 1)`,
not `60 * (total line count + 1)`. -/
theorem claim_C6 (lib : DrawingLib) (hand : Hand) (text : String)
    (style : ℕ) (bias : ℚ) (color : String) (width : ℚ)
    (hs : ∀ ls bs ss, (hand.sample ls bs ss).length = ls.length) :
    (generate_handwriting_svg_simple lib hand text style bias color width =
      if simple_lines text = [] then Except.error SynthesisError.emptyInput
      else generate_handwriting_svg lib hand (simple_lines text)
        (some (List.replicate (simple_lines text).length bias))
        (some (List.replicate (simple_lines text).length style))
        (some (List.replicate (simple_lines text).length color))
        (some (List.replicate (simple_lines text).length width))
        default_view_width) ∧
    ∀ r, generate_handwriting_svg_simple lib hand text style bias color width
        = Except.ok r →
      r.view_height = 60 * ((simple_lines text).length + 1) := by
  constructor
  · rfl
  · intro r h
    unfold generate_handwriting_svg_simple at h
    by_cases hl : simple_lines text = []
    · rw [if_pos hl] at h; cases h
    · rw [if_neg hl] at h
      have hh := generate_view_height lib hand (simple_lines text) _ _ _ _ _ r hs h
      simpa [line_height] using hh

/-- Witness for C6 at the text `"ab\n \ncd"`, whose middle line is blank:
the two non-blank lines give height `60 * 3 = 180`. -/
theorem claim_C6_witness :
    res0.view_height = 60 * ((simple_lines "ab\n \ncd").length + 1) :=
  (claim_C6 lib0 hand0 "ab\n \ncd" 9 (3 / 4) "black" 2
    (fun ls _ _ => by simp [hand0])).2 res0
    (by
      have hsl : simple_lines "ab\n \ncd" = ["ab", "cd"] := by decide
      have hv : validateLines ['a', 'b', 'c', 'd'] 0 ["ab", "cd"] = none := by decide
      have h1 : ("ab" : String) ≠ "" := by decide
      have h2 : ("cd" : String) ≠ "" := by decide
      have hp1 : pyStrip ⟨['a', 'b']⟩ = "ab" := by decide
      have hp2 : pyStrip ⟨['c', 'd']⟩ = "cd" := by decide
      norm_num [generate_handwriting_svg_simple, hsl, hp1, hp2, generate_handwriting_svg, hv, h1,
        h2, hand0, lib0, res0, pyListOr, layout_items, svg_loop, process_line,
        apply_align, scale_offsets, flip_y, global_min, translate_to_origin, center_x,
        layout_line, qmin, qmax, serialize_path, path_cmds, line_height,
        default_view_width]
      intro hcontra
      exact absurd hcontra (by simp))

/-- Claim C8: a text with zero non-blank lines makes the simple interface
fail fast with the empty-input error, whatever the model is — so before any
model invocation or synthesis. -/
theorem claim_C8 (lib : DrawingLib) (text : String) (style : ℕ) (bias : ℚ)
    (color : String) (width : ℚ) (h : simple_lines text = []) :
    ∀ hand : Hand,
      generate_handwriting_svg_simple lib hand text style bias color width =
        Except.error SynthesisError.emptyInput := by
  intro hand
  unfold generate_handwriting_svg_simple
  rw [if_pos h]

/-- Witness for C8 at the text `" \n\t"`, all of whose lines are blank. -/
theorem claim_C8_witness :
    generate_handwriting_svg_simple lib0 hand0 " \n\t" 9 (3 / 4) "black" 2 =
      Except.error SynthesisError.emptyInput :=
  claim_C8 lib0 " \n\t" 9 (3 / 4) "black" 2 (by decide) hand0

/-- Squared bounding-box diagonal of a segment (squares avoid a square
root; comparing the diagonal against a threshold is equivalent to comparing
the squares against its square). -/
def segDiagSq (seg : Stroke) : ℚ :=
  (qmax (seg.map (fun p => p.x)) - qmin (seg.map (fun p => p.x))) ^ 2 +
    (qmax (seg.map (fun p => p.y)) - qmin (seg.map (fun p => p.y))) ^ 2

/-- Split a stroke into its maximal pen-down segments: a segment ends at a
point whose `endOfStroke` flag is 1, and the next point starts a new one. -/
def splitSegments : Stroke → List Stroke
  | [] => []
  | p :: ps =>
      if p.eos = 1 then [p] :: splitSegments ps
      else
        match splitSegments ps with
        | [] => [[p]]
        | s :: ss => (p :: s) :: ss

/-- Drop the segments below the threshold, always keeping the final one
(which holds the stroke's last point). -/
def keepMiddle (t : ℚ) : List Stroke → List Stroke
  | [] => []
  | [seg] => [seg]
  | seg :: b :: rest =>
      if t ≤ segDiagSq seg then seg :: keepMiddle t (b :: rest)
      else keepMiddle t (b :: rest)

/-- Keep the first segment unconditionally, then filter the rest with
`keepMiddle` (which keeps the final segment unconditionally). -/
def keepSegs (t : ℚ) : List Stroke → List Stroke
  | [] => []
  | [seg] => [seg]
  | seg :: b :: rest => seg :: keepMiddle t (b :: rest)

namespace drawing

/-- Modelled from the spec: the repository's `drawing.denoise` lives in the
vendored handwriting library (`handwriting_lib`), not under the backend
sources, so it is modelled from spec §4.2 — split the stroke into maximal
pen-down segments, drop every segment whose bounding-box diagonal falls
below a small fixed threshold `t` (a tunable constant per §9), and never
drop the first or last point of the stroke (the first and last segments are
always kept); point order is preserved. -/
def denoise (t : ℚ) (s : Stroke) : Stroke :=
  (keepSegs t (splitSegments s)).flatten

end drawing

/-- A well-formed segment: non-empty, and only its last point may carry the
`endOfStroke` flag. -/
def segWF (seg : Stroke) : Prop :=
  seg ≠ [] ∧ ∀ p ∈ seg.dropLast, p.eos ≠ 1

/-- The segment's last point carries the `endOfStroke` flag. -/
def endsEos (seg : Stroke) : Prop :=
  match seg.getLast? with
  | some p => p.eos = 1
  | none => False

/-- A well-formed segmentation: every segment is well formed, and every
segment except possibly the final one ends with the flag set. -/
def segsWF : List Stroke → Prop
  | [] => True
  | seg :: rest => segWF seg ∧ (rest = [] ∨ endsEos seg) ∧ segsWF rest

/-- Helper: `splitSegments` always yields a well-formed segmentation. -/
theorem splitSegments_wf : ∀ s : Stroke, segsWF (splitSegments s) := by
  intro s
  induction s with
  | nil => trivial
  | cons p ps ih =>
      by_cases hp : p.eos = 1
      · simp only [splitSegments, if_pos hp]
        refine ⟨⟨by simp, by simp⟩, ?_, ih⟩
        right
        simp [endsEos, hp]
      · simp only [splitSegments, if_neg hp]
        cases hsp : splitSegments ps with
        | nil => exact ⟨⟨by simp, by simp [hp]⟩, Or.inl rfl, trivial⟩
        | cons s0 ss =>
            rw [hsp] at ih
            obtain ⟨⟨hne, hdrop⟩, hend, hrest⟩ := ih
            obtain ⟨s1, s2, rfl⟩ := List.exists_cons_of_ne_nil hne
            refine ⟨⟨by simp, ?_⟩, ?_, hrest⟩
            · intro q hq
              rw [List.dropLast_cons₂] at hq
              rcases List.mem_cons.mp hq with rfl | hq2
              · exact hp
              · exact hdrop q hq2
            · rcases hend with hss | hed
              · exact Or.inl hss
              · right
                simpa [endsEos, List.getLast?_cons_cons] using hed

/-- Helper: one-step unfolding of `splitSegments` on a cons. -/
theorem splitSegments_cons (p : StrokePoint) (ps : Stroke) :
    splitSegments (p :: ps) =
      if p.eos = 1 then [p] :: splitSegments ps
      else
        match splitSegments ps with
        | [] => [[p]]
        | s :: ss => (p :: s) :: ss := rfl

/-- Helper: splitting a single well-formed segment yields just it. -/
theorem splitSegments_single : ∀ seg : Stroke, segWF seg → splitSegments seg = [seg] := by
  intro seg
  induction seg with
  | nil => intro h; cases h.1 rfl
  | cons p ps ih =>
      intro h
      cases ps with
      | nil =>
          by_cases hp : p.eos = 1
          · simp [splitSegments, hp]
          · simp [splitSegments, hp]
      | cons q qs =>
          have hp : p.eos ≠ 1 := h.2 p (by rw [List.dropLast_cons₂]; exact List.mem_cons_self p _)
          have hps : segWF (q :: qs) := by
            refine ⟨by simp, ?_⟩
            intro r hr
            exact h.2 r (by rw [List.dropLast_cons₂]; exact List.mem_cons_of_mem p hr)
          rw [splitSegments_cons, if_neg hp, ih hps]

/-- Helper: splitting a well-formed, flag-terminated segment followed by
anything splits off exactly that segment. -/
theorem splitSegments_append :
    ∀ seg : Stroke, segWF seg → endsEos seg →
      ∀ l : Stroke, splitSegments (seg ++ l) = seg :: splitSegments l := by
  intro seg
  induction seg with
  | nil => intro h; cases h.1 rfl
  | cons p ps ih =>
      intro h hend l
      cases ps with
      | nil =>
          have hp : p.eos = 1 := by simpa [endsEos] using hend
          simp [splitSegments, hp]
      | cons q qs =>
          have hp : p.eos ≠ 1 := h.2 p (by rw [List.dropLast_cons₂]; exact List.mem_cons_self p _)
          have hps : segWF (q :: qs) := by
            refine ⟨by simp, ?_⟩
            intro r hr
            exact h.2 r (by rw [List.dropLast_cons₂]; exact List.mem_cons_of_mem p hr)
          have hpse : endsEos (q :: qs) := by
            simpa [endsEos, List.getLast?_cons_cons] using hend
          have happ : (p :: q :: qs) ++ l = p :: ((q :: qs) ++ l) := rfl
          rw [happ, splitSegments_cons, if_neg hp, ih hps hpse l]

/-- Helper: splitting the flattening of a well-formed segmentation recovers
exactly the segments. -/
theorem splitSegments_flatten :
    ∀ L : List Stroke, segsWF L → splitSegments L.flatten = L := by
  intro L
  induction L with
  | nil => intro _; rfl
  | cons seg rest ih =>
      intro h
      obtain ⟨hseg, hend, hrest⟩ := h
      cases rest with
      | nil => simpa using splitSegments_single seg hseg
      | cons b bs =>
          have hed : endsEos seg := by
            rcases hend with hcontra | hed
            · cases hcontra
            · exact hed
          rw [List.flatten_cons, splitSegments_append seg hseg hed, ih hrest]

/-- Helper: one-step unfolding of `keepMiddle` on two or more segments. -/
theorem keepMiddle_cons₂ (t : ℚ) (seg b : Stroke) (rest : List Stroke) :
    keepMiddle t (seg :: b :: rest) =
      if t ≤ segDiagSq seg then seg :: keepMiddle t (b :: rest)
      else keepMiddle t (b :: rest) := rfl

/-- Helper: one-step unfolding of `keepSegs` on two or more segments. -/
theorem keepSegs_cons₂ (t : ℚ) (seg b : Stroke) (rest : List Stroke) :
    keepSegs t (seg :: b :: rest) = seg :: keepMiddle t (b :: rest) := rfl

/-- Helper: `keepMiddle` keeps the final segment, so it never empties a
non-empty list. -/
theorem keepMiddle_ne_nil (t : ℚ) : ∀ l : List Stroke, l ≠ [] → keepMiddle t l ≠ [] := by
  intro l
  induction l with
  | nil => intro h; cases h rfl
  | cons seg rest ih =>
      intro _
      cases rest with
      | nil => simp [keepMiddle]
      | cons b bs =>
          by_cases hbig : t ≤ segDiagSq seg
          · rw [keepMiddle_cons₂, if_pos hbig]
            simp
          · rw [keepMiddle_cons₂, if_neg hbig]
            exact ih (by simp)

/-- Helper: `keepMiddle` is idempotent. -/
theorem keepMiddle_idem (t : ℚ) :
    ∀ l : List Stroke, keepMiddle t (keepMiddle t l) = keepMiddle t l := by
  intro l
  induction l with
  | nil => rfl
  | cons seg rest ih =>
      cases rest with
      | nil => rfl
      | cons b bs =>
          by_cases hbig : t ≤ segDiagSq seg
          · rw [keepMiddle_cons₂, if_pos hbig]
            obtain ⟨k, ks, hk⟩ :=
              List.exists_cons_of_ne_nil (keepMiddle_ne_nil t (b :: bs) (by simp))
            rw [hk, keepMiddle_cons₂, if_pos hbig, ← hk, ih]
          · rw [keepMiddle_cons₂, if_neg hbig, ih]

/-- Helper: `keepSegs` is idempotent. -/
theorem keepSegs_idem (t : ℚ) :
    ∀ l : List Stroke, keepSegs t (keepSegs t l) = keepSegs t l := by
  intro l
  cases l with
  | nil => rfl
  | cons seg rest =>
      cases rest with
      | nil => rfl
      | cons b bs =>
          rw [keepSegs_cons₂]
          obtain ⟨k, ks, hk⟩ :=
            List.exists_cons_of_ne_nil (keepMiddle_ne_nil t (b :: bs) (by simp))
          rw [hk, keepSegs_cons₂, ← hk, keepMiddle_idem]

/-- Helper: `keepMiddle` preserves well-formedness of a segmentation. -/
theorem keepMiddle_wf (t : ℚ) : ∀ l : List Stroke, segsWF l → segsWF (keepMiddle t l) := by
  intro l
  induction l with
  | nil => intro h; exact h
  | cons seg rest ih =>
      intro h
      obtain ⟨hseg, hend, hrest⟩ := h
      cases rest with
      | nil => exact ⟨hseg, Or.inl rfl, trivial⟩
      | cons b bs =>
          have hed : endsEos seg := hend.resolve_left (by simp)
          by_cases hbig : t ≤ segDiagSq seg
          · rw [keepMiddle_cons₂, if_pos hbig]
            exact ⟨hseg, Or.inr hed, ih hrest⟩
          · rw [keepMiddle_cons₂, if_neg hbig]
            exact ih hrest

/-- Helper: `keepSegs` preserves well-formedness of a segmentation. -/
theorem keepSegs_wf (t : ℚ) : ∀ l : List Stroke, segsWF l → segsWF (keepSegs t l) := by
  intro l h
  cases l with
  | nil => exact h
  | cons seg rest =>
      obtain ⟨hseg, hend, hrest⟩ := h
      cases rest with
      | nil => exact ⟨hseg, Or.inl rfl, trivial⟩
      | cons b bs =>
          rw [keepSegs_cons₂]
          exact ⟨hseg, Or.inr (hend.resolve_left (by simp)), keepMiddle_wf t _ hrest⟩

/-- Claim C7: denoising is idempotent — applying the modelled
`drawing.denoise` twice yields the same stroke as applying it once, for
every threshold `t` and every stroke `s`. -/
theorem claim_C7 (t : ℚ) (s : Stroke) :
    drawing.denoise t (drawing.denoise t s) = drawing.denoise t s := by
  unfold drawing.denoise
  rw [splitSegments_flatten _ (keepSegs_wf t _ (splitSegments_wf s)), keepSegs_idem]

/-- Helper: Python `arg or dflt` for `arg = None` yields the default. -/
theorem pyListOr_none {α : Type} (d : List α) : pyListOr none d = d := rfl

/-- Helper: Python `arg or dflt` where `arg` is the default list itself also
yields the default (an empty default is falsy, but then both sides agree). -/
theorem pyListOr_self {α : Type} (d : List α) : pyListOr (some d) d = d := by
  cases d with
  | nil => rfl
  | cons a as => rfl

/-- Claim C10: with the optional arguments unspecified,
`generate_handwriting_svg` behaves exactly as if bias `0.75`, style index
`9`, stroke color `"black"` and stroke width `2` had been passed for every
line; the line height constant is `60` and the Python signature's default
viewbox width is `1000`. -/
theorem claim_C10 (lib : DrawingLib) (hand : Hand) (lines : List String) (vw : ℚ) :
    (generate_handwriting_svg lib hand lines none none none none vw =
      generate_handwriting_svg lib hand lines
        (some (List.replicate lines.length ((3 : ℚ) / 4)))
        (some (List.replicate lines.length 9))
        (some (List.replicate lines.length "black"))
        (some (List.replicate lines.length 2)) vw) ∧
    line_height = 60 ∧ default_view_width = 1000 := by
  refine ⟨?_, rfl, rfl⟩
  simp only [generate_handwriting_svg, pyListOr_none, pyListOr_self]
